import Mathlib

/-!
Verification of the noise-rust foundation layer: the handshake pattern
catalog (`src/noise/src/handshakepattern.rs`) and the primitive trait
layer with HMAC/HKDF (`src/noise/src/traits.rs`), shallowly embedded.

Bytes are modelled as `Nat` (all byte values stay below 256 under `Nat.xor`
of bytes, so no masking is needed); Rust panics are modelled as `Option`
with `none` for the panic; `ArrayVec` fields become plain lists with the
capacity checks carried by the `new` constructor.
-/

namespace NoiseRust

/-- A token in noise message patterns (enum `Token`). -/
inductive Token where
  | E
  | S
  | EE
  | ES
  | SE
  | SS
  | PSK
deriving DecidableEq

open Token

/-- Noise handshake pattern (struct `HandshakePattern`).
The `ArrayVec` capacities (4 for pre-messages, 8 message patterns of at
most 8 tokens) are enforced by `HandshakePattern.new` below. -/
structure HandshakePattern where
  pre_i : List Token
  pre_r : List Token
  msg_patterns : List (List Token)
  name : String
deriving DecidableEq

/-- Constructor `HandshakePattern::new`: collects the slices into `ArrayVec`s.
`ArrayVec` extension panics when the capacity (4 for pre-messages,
8 patterns of at most 8 tokens) is exceeded; the panic is `none`. -/
def HandshakePattern.new (pre_i pre_r : List Token)
    (msg_patterns : List (List Token)) (name : String) :
    Option HandshakePattern :=
  if pre_i.length ≤ 4 ∧ pre_r.length ≤ 4 ∧ msg_patterns.length ≤ 8 ∧
      msg_patterns.all (fun p => p.length ≤ 8) then
    some { pre_i := pre_i, pre_r := pre_r, msg_patterns := msg_patterns,
           name := name }
  else
    none

/-- Accessor `get_pre_i`. -/
def HandshakePattern.get_pre_i (p : HandshakePattern) : List Token :=
  p.pre_i

/-- Accessor `get_pre_r`. -/
def HandshakePattern.get_pre_r (p : HandshakePattern) : List Token :=
  p.pre_r

/-- Accessor `get_message_pattern`: indexing `self.msg_patterns[i]` panics (`none`)
when `i` is out of bounds. -/
def HandshakePattern.get_message_pattern (p : HandshakePattern) (i : Nat) :
    Option (List Token) :=
  p.msg_patterns.get? i

/-- Accessor `get_message_patterns_len`. -/
def HandshakePattern.get_message_patterns_len (p : HandshakePattern) : Nat :=
  p.msg_patterns.length

/-- Accessor `get_name`. -/
def HandshakePattern.get_name (p : HandshakePattern) : String :=
  p.name

/-- Method `has_psk`: any token of any message pattern matches `Token::PSK`. -/
def HandshakePattern.has_psk (p : HandshakePattern) : Bool :=
  p.msg_patterns.any (fun m =>
    m.any (fun t =>
      match t with
      | Token.PSK => true
      | _ => false))

/-- The `Noise_N` pattern. -/
def noise_n : HandshakePattern :=
  { pre_i := [], pre_r := [S], msg_patterns := [[E, ES]], name := "N" }

/-- The `Noise_K` pattern. -/
def noise_k : HandshakePattern :=
  { pre_i := [S], pre_r := [S], msg_patterns := [[E, ES, SS]], name := "K" }

/-- The `Noise_X` pattern. -/
def noise_x : HandshakePattern :=
  { pre_i := [], pre_r := [S], msg_patterns := [[E, ES, S, SS]], name := "X" }

/-- The `Noise_NN` pattern. -/
def noise_nn : HandshakePattern :=
  { pre_i := [], pre_r := [], msg_patterns := [[E], [E, EE]], name := "NN" }

/-- The `Noise_NK` pattern. -/
def noise_nk : HandshakePattern :=
  { pre_i := [], pre_r := [S], msg_patterns := [[E, ES], [E, EE]],
    name := "NK" }

/-- The `Noise_NX` pattern. -/
def noise_nx : HandshakePattern :=
  { pre_i := [], pre_r := [], msg_patterns := [[E], [E, EE, S, ES]],
    name := "NX" }

/-- The `Noise_XN` pattern. -/
def noise_xn : HandshakePattern :=
  { pre_i := [], pre_r := [], msg_patterns := [[E], [E, EE], [S, SE]],
    name := "XN" }

/-- The `Noise_XK` pattern. -/
def noise_xk : HandshakePattern :=
  { pre_i := [], pre_r := [S], msg_patterns := [[E, ES], [E, EE], [S, SE]],
    name := "XK" }

/-- The `Noise_XX` pattern. -/
def noise_xx : HandshakePattern :=
  { pre_i := [], pre_r := [],
    msg_patterns := [[E], [E, EE, S, ES], [S, SE]], name := "XX" }

/-- The `Noise_KN` pattern. -/
def noise_kn : HandshakePattern :=
  { pre_i := [S], pre_r := [], msg_patterns := [[E], [E, EE, SE]],
    name := "KN" }

/-- The `Noise_KK` pattern. -/
def noise_kk : HandshakePattern :=
  { pre_i := [S], pre_r := [S],
    msg_patterns := [[E, ES, SS], [E, EE, SE]], name := "KK" }

/-- The `Noise_KX` pattern. -/
def noise_kx : HandshakePattern :=
  { pre_i := [S], pre_r := [],
    msg_patterns := [[E], [E, EE, SE, S, ES]], name := "KX" }

/-- The `Noise_IN` pattern. -/
def noise_in : HandshakePattern :=
  { pre_i := [], pre_r := [], msg_patterns := [[E, S], [E, EE, SE]],
    name := "IN" }

/-- The `Noise_IK` pattern. -/
def noise_ik : HandshakePattern :=
  { pre_i := [], pre_r := [S],
    msg_patterns := [[E, ES, S, SS], [E, EE, SE]], name := "IK" }

/-- The `Noise_IX` pattern. -/
def noise_ix : HandshakePattern :=
  { pre_i := [], pre_r := [],
    msg_patterns := [[E, S], [E, EE, SE, S, ES]], name := "IX" }

/-- The `Noise_XXfallback` pattern. -/
def noise_xx_fallback : HandshakePattern :=
  { pre_i := [], pre_r := [E],
    msg_patterns := [[E, EE, S, SE], [S, ES]], name := "XXfallback" }

/-! ### Fixed size u8 arrays (`trait U8Array`, `impl_array!`) -/

/-- A byte. Modelled as `Nat`; all values produced stay below 256. -/
abbrev Byte := Nat

/-- A fixed size u8 array of length `n` (`[u8; n]` behind `impl_array!`). -/
def U8Array (n : Nat) := { l : List Byte // l.length = n }

instance (n : Nat) : DecidableEq (U8Array n) :=
  fun a b => decidable_of_iff (a.val = b.val) Subtype.ext_iff.symm

/-- Method `U8Array::new`: array filled with zeros. -/
def U8Array.new (n : Nat) : U8Array n :=
  ⟨List.replicate n 0, List.length_replicate n 0⟩

/-- Method `U8Array::new_with`: array filled with one value. -/
def U8Array.new_with (n : Nat) (x : Byte) : U8Array n :=
  ⟨List.replicate n x, List.length_replicate n x⟩

/-- Method `U8Array::from_slice`: starts from `[0u8; n]` and `copy_from_slice`s
the data into it; `copy_from_slice` panics (`none`) unless the slice
length equals `n`, and otherwise the result holds exactly the data. -/
def U8Array.from_slice (n : Nat) (data : List Byte) : Option (U8Array n) :=
  if h : data.length = n then some ⟨data, h⟩ else none

/-- Method `U8Array::len`. -/
def U8Array.len (n : Nat) : Nat := n

/-- Method `U8Array::as_slice`. -/
def U8Array.as_slice {n : Nat} (a : U8Array n) : List Byte := a.val

/-- The lengths instantiated by `impl_array!` in the source. -/
def impl_array_lens : List Nat := [32, 64, 128]

/-! ### The `Cipher` trait

`Cipher` is a trait whose `key_len` and `tag_len` have default bodies an
implementation may override.  An impl is modelled as a record whose
fields hold the methods; the trait's default bodies become the record's
default field values, so an impl built without overriding gets exactly
the trait defaults. -/

/-- The `Cipher` trait: `keyBufLen` is the fixed length of the associated
`Key` buffer type; `key_len` defaults to `Self::Key::len()` and `tag_len`
defaults to 16 as in the trait's default method bodies. -/
structure Cipher where
  keyBufLen : Nat
  key_len : Nat := keyBufLen
  tag_len : Nat := 16

/-! ### The `Hash` trait and its derived HMAC / HKDF algorithms

A hash impl provides `input` (incremental, any number of calls) and
`result`.  Per the contract, feeding data across several `input` calls
equals feeding the concatenation, so a context is modelled by the list
of bytes absorbed since the last reset and an impl by the pure
finalisation function `hashFn` together with its block and output
lengths.  The Rust type system forces `result` to return `Self::Output`,
an array of exactly `hash_len` bytes; `hashFn_len` records this. -/

structure HashSpec where
  hashFn : List Byte → List Byte
  blockLen : Nat
  hashLen : Nat
  hashFn_len : ∀ l, (hashFn l).length = hashLen

/-- Method `Hash::input`: absorb more data into the context. -/
def HashSpec.input (_H : HashSpec) (st : List Byte) (data : List Byte) :
    List Byte :=
  st ++ data

/-- Method `Hash::result`: finalise the context. -/
def HashSpec.result (H : HashSpec) (st : List Byte) : List Byte :=
  H.hashFn st

/-- Method `Hash::hash`: one-shot default construction, input, result. -/
def HashSpec.hash (H : HashSpec) (data : List Byte) : List Byte :=
  H.result (H.input [] data)

/-- The pad-building loop of `hmac_many`: starting from a block filled
with `padByte`, `pad[count] ^= key[count]` for `count` in `0..key.len()`.
With `key.length ≤ pad.length` (guaranteed by the assert) this is the
entrywise xor on the leading `key.length` bytes, rest unchanged. -/
def xorIntoPad (pad key : List Byte) : List Byte :=
  List.zipWith Nat.xor pad key ++ pad.drop key.length

/-- Method `Hash::hmac_many`: asserts `key.len() <= block_len()` (panic is
`none`), builds `ipad`/`opad` from `0x36`/`0x5c`, hashes
`ipad ‖ msg_1 ‖ … ‖ msg_n`, then hashes `opad ‖ inner`. -/
def HashSpec.hmac_many (H : HashSpec) (key : List Byte)
    (data : List (List Byte)) : Option (List Byte) :=
  if key.length ≤ H.blockLen then
    let ipad := xorIntoPad (U8Array.new_with H.blockLen 0x36).as_slice key
    let opad := xorIntoPad (U8Array.new_with H.blockLen 0x5c).as_slice key
    let st := H.input [] ipad
    let st := data.foldl (fun s d => H.input s d) st
    let inner_output := H.result st
    let st2 := H.input [] opad
    let st2 := H.input st2 inner_output
    some (H.result st2)
  else
    none

/-- Method `Hash::hmac`: the one-message specialisation of `hmac_many`. -/
def HashSpec.hmac (H : HashSpec) (key : List Byte) (data : List Byte) :
    Option (List Byte) :=
  H.hmac_many key [data]

/-- Method `Hash::hkdf`: the noise two-output key derivation.  A panic in any
inner HMAC propagates (`Option.bind`). -/
def HashSpec.hkdf (H : HashSpec) (chaining_key input_key_material : List Byte) :
    Option (List Byte × List Byte) := do
  let temp_key ← H.hmac chaining_key input_key_material
  let out1 ← H.hmac temp_key [1]
  let out2 ← H.hmac_many temp_key [out1, [2]]
  pure (out1, out2)

/-! ### Helper lemmas -/

/-- Feeding a list of messages to a context by folding `input` absorbs
their concatenation. -/
theorem foldl_input_eq (H : HashSpec) (l : List (List Byte))
    (st : List Byte) :
    l.foldl (fun s d => H.input s d) st = st ++ l.flatten := by
  induction l generalizing st with
  | nil => simp [HashSpec.input]
  | cons d ds ih =>
    rw [List.foldl_cons, ih]
    simp [HashSpec.input]

/-- Closed form of `hmac_many` when the key fits in a block. -/
theorem hmac_many_eq (H : HashSpec) (key : List Byte)
    (data : List (List Byte)) (h : key.length ≤ H.blockLen) :
    H.hmac_many key data =
      some (H.hashFn (xorIntoPad (List.replicate H.blockLen 0x5c) key ++
        H.hashFn (xorIntoPad (List.replicate H.blockLen 0x36) key ++
          data.flatten))) := by
  rw [HashSpec.hmac_many, if_pos h]
  simp only [foldl_input_eq]
  simp [U8Array.new_with, U8Array.as_slice, HashSpec.input, HashSpec.result]

/-- The output of a successful `hmac_many` has the hash output length,
because `result` returns a `Self::Output` value. -/
theorem hmac_many_len (H : HashSpec) (key : List Byte)
    (data : List (List Byte)) (res : List Byte)
    (h : H.hmac_many key data = some res) : res.length = H.hashLen := by
  rw [HashSpec.hmac_many] at h
  split at h
  · cases h
    exact H.hashFn_len _
  · cases h

/-- A token is matched by the `has_psk` predicate iff it is `PSK`. -/
theorem is_psk_match_eq (t : Token) :
    (match t with | Token.PSK => true | _ => false) = true ↔
      t = Token.PSK := by
  cases t <;> simp

/-- A small concrete hash impl used to instantiate general theorems. -/
def demoHash : HashSpec :=
  { hashFn := fun l => [l.length % 256]
    blockLen := 4
    hashLen := 1
    hashFn_len := fun _ => rfl }

/-! ### The claims -/

/-- C1: each named base pattern constructor returns exactly the Noise
specification's token sequences; in particular `noise_xx`, `noise_ik`
and `noise_n` return the published `XX`, `IK` and `N` grammars. -/
theorem named_patterns_match_noise_spec :
    noise_xx.pre_i = [] ∧ noise_xx.pre_r = [] ∧
      noise_xx.msg_patterns = [[E], [E, EE, S, ES], [S, SE]] ∧
    noise_ik.pre_i = [] ∧ noise_ik.pre_r = [S] ∧
      noise_ik.msg_patterns = [[E, ES, S, SS], [E, EE, SE]] ∧
    noise_n.pre_i = [] ∧ noise_n.pre_r = [S] ∧
      noise_n.msg_patterns = [[E, ES]] ∧
    noise_k.pre_i = [S] ∧ noise_k.pre_r = [S] ∧
      noise_k.msg_patterns = [[E, ES, SS]] ∧
    noise_x.pre_i = [] ∧ noise_x.pre_r = [S] ∧
      noise_x.msg_patterns = [[E, ES, S, SS]] ∧
    noise_nn.pre_i = [] ∧ noise_nn.pre_r = [] ∧
      noise_nn.msg_patterns = [[E], [E, EE]] ∧
    noise_nk.pre_i = [] ∧ noise_nk.pre_r = [S] ∧
      noise_nk.msg_patterns = [[E, ES], [E, EE]] ∧
    noise_nx.pre_i = [] ∧ noise_nx.pre_r = [] ∧
      noise_nx.msg_patterns = [[E], [E, EE, S, ES]] ∧
    noise_xn.pre_i = [] ∧ noise_xn.pre_r = [] ∧
      noise_xn.msg_patterns = [[E], [E, EE], [S, SE]] ∧
    noise_xk.pre_i = [] ∧ noise_xk.pre_r = [S] ∧
      noise_xk.msg_patterns = [[E, ES], [E, EE], [S, SE]] ∧
    noise_kn.pre_i = [S] ∧ noise_kn.pre_r = [] ∧
      noise_kn.msg_patterns = [[E], [E, EE, SE]] ∧
    noise_kk.pre_i = [S] ∧ noise_kk.pre_r = [S] ∧
      noise_kk.msg_patterns = [[E, ES, SS], [E, EE, SE]] ∧
    noise_kx.pre_i = [S] ∧ noise_kx.pre_r = [] ∧
      noise_kx.msg_patterns = [[E], [E, EE, SE, S, ES]] ∧
    noise_in.pre_i = [] ∧ noise_in.pre_r = [] ∧
      noise_in.msg_patterns = [[E, S], [E, EE, SE]] ∧
    noise_ix.pre_i = [] ∧ noise_ix.pre_r = [] ∧
      noise_ix.msg_patterns = [[E, S], [E, EE, SE, S, ES]] := by
  repeat constructor

/-- C4 counterexample: `noise_xx_fallback` does NOT reuse the second and
third messages of `noise_xx` verbatim; its first message is
`[E, EE, S, SE]`, not `[E, EE, S, ES]` (the role-dependent DH tokens
`ES` and `SE` are interchanged). -/
theorem xx_fallback_claim_counterexample :
    ¬ (noise_xx_fallback.msg_patterns = [[E, EE, S, ES], [S, SE]]) := by
  decide

/-- C4 amended: `noise_xx_fallback` has responder pre-message `[E]`,
empty initiator pre-message, and messages `[E, EE, S, SE]` and
`[S, ES]` — the second and third `XX` messages with each role-dependent
DH token transposed (`ES` and `SE` swapped). -/
theorem xx_fallback_spec :
    noise_xx_fallback.pre_i = [] ∧ noise_xx_fallback.pre_r = [E] ∧
      noise_xx_fallback.msg_patterns = [[E, EE, S, SE], [S, ES]] := by
  decide

/-- C9: a `Cipher` impl that does not override the trait's default
methods has `tag_len` exactly 16 and `key_len` exactly the fixed length
of its associated `Key` buffer type. -/
theorem cipher_default_lens (kl : Nat) :
    ({ keyBufLen := kl } : Cipher).tag_len = 16 ∧
      ({ keyBufLen := kl } : Cipher).key_len = kl :=
  ⟨rfl, rfl⟩

/-- C5: `has_psk` is true iff a `PSK` token appears in some message
pattern (pre-messages are not considered), and every one of the 16
named constructors returns a pattern without a PSK token. -/
theorem has_psk_iff_psk_token :
    (∀ p : HandshakePattern,
      p.has_psk = true ↔ ∃ m ∈ p.msg_patterns, Token.PSK ∈ m) ∧
    noise_n.has_psk = false ∧ noise_k.has_psk = false ∧
    noise_x.has_psk = false ∧ noise_nn.has_psk = false ∧
    noise_nk.has_psk = false ∧ noise_nx.has_psk = false ∧
    noise_xn.has_psk = false ∧ noise_xk.has_psk = false ∧
    noise_xx.has_psk = false ∧ noise_kn.has_psk = false ∧
    noise_kk.has_psk = false ∧ noise_kx.has_psk = false ∧
    noise_in.has_psk = false ∧ noise_ik.has_psk = false ∧
    noise_ix.has_psk = false ∧ noise_xx_fallback.has_psk = false := by
  refine ⟨fun p => ?_, ?_⟩
  · simp [HandshakePattern.has_psk, List.any_eq_true, is_psk_match_eq]
  · repeat constructor

/-- C6: `HandshakePattern::new` panics (`none`) exactly when a message
pattern has more than 8 tokens, there are more than 8 message patterns,
or a pre-message has more than 4 tokens; on success the inputs are
stored without truncation. -/
theorem new_capacity_checks (pre_i pre_r : List Token)
    (msg_patterns : List (List Token)) (name : String) :
    (HandshakePattern.new pre_i pre_r msg_patterns name = none ↔
      (4 < pre_i.length ∨ 4 < pre_r.length ∨ 8 < msg_patterns.length ∨
        ∃ m ∈ msg_patterns, 8 < m.length)) ∧
    (∀ p, HandshakePattern.new pre_i pre_r msg_patterns name = some p →
      p.pre_i = pre_i ∧ p.pre_r = pre_r ∧
        p.msg_patterns = msg_patterns ∧ p.name = name) := by
  constructor
  · rw [HandshakePattern.new]
    split
    · rename_i hc
      simp only [reduceCtorEq, false_iff]
      obtain ⟨h1, h2, h3, h4⟩ := hc
      simp only [List.all_eq_true, decide_eq_true_eq] at h4
      push_neg
      exact ⟨h1, h2, h3, fun m hm => h4 m hm⟩
    · rename_i hc
      simp only [true_iff]
      simp only [not_and_or, not_le, List.all_eq_true, not_forall,
        decide_eq_true_eq, exists_prop] at hc
      rcases hc with h | h | h | ⟨m, hm, h⟩
      · exact Or.inl h
      · exact Or.inr (Or.inl h)
      · exact Or.inr (Or.inr (Or.inl h))
      · exact Or.inr (Or.inr (Or.inr ⟨m, hm, by omega⟩))
  · intro p hp
    rw [HandshakePattern.new] at hp
    split at hp
    · cases hp
      exact ⟨rfl, rfl, rfl, rfl⟩
    · cases hp

/-- C6 witness: constructing the `N` pattern inputs succeeds and stores
them untouched. -/
theorem new_capacity_checks_witness :
    noise_n.pre_i = [] ∧ noise_n.pre_r = [S] ∧
      noise_n.msg_patterns = [[E, ES]] ∧ noise_n.name = "N" :=
  (new_capacity_checks [] [S] [[E, ES]] "N").2 noise_n (by rfl)

/-- C10: `get_message_pattern` is defined exactly for indices below
`get_message_patterns_len`; at any index at or beyond that count it
panics (`none`) rather than returning an empty sequence. -/
theorem get_message_pattern_defined_iff (p : HandshakePattern) (i : Nat) :
    ((p.get_message_pattern i).isSome = true ↔
      i < p.get_message_patterns_len) ∧
    (p.get_message_patterns_len ≤ i → p.get_message_pattern i = none) := by
  constructor
  · rw [HandshakePattern.get_message_pattern,
      HandshakePattern.get_message_patterns_len]
    generalize p.msg_patterns = l
    induction l generalizing i with
    | nil => simp [List.get?]
    | cons a t ih =>
      cases i with
      | zero => simp [List.get?]
      | succ j => simpa [List.get?] using ih j
  · intro h
    exact List.get?_eq_none.mpr h

/-- C10 witness: index 5 is out of bounds for the single-message `N`
pattern, so the lookup yields `none`. -/
theorem get_message_pattern_defined_iff_witness :
    noise_n.get_message_pattern 5 = none :=
  (get_message_pattern_defined_iff noise_n 5).2 (by decide)

/-- C2: within the HMAC precondition (chaining key fits in a block, and
hash outputs fit in a block so the inner HMAC keys are admissible),
`hkdf` computes `temp_key = hmac(ck, ikm)`, `out1 = hmac(temp_key, [1])`
and `out2 = hmac_many(temp_key, [out1, [2]])`, all of which succeed, and
returns the pair in the order `(out1, out2)`. -/
theorem hkdf_computes_hmac_chain (H : HashSpec) (ck ikm : List Byte)
    (hck : ck.length ≤ H.blockLen) (hlen : H.hashLen ≤ H.blockLen) :
    ∃ temp_key out1 out2,
      H.hmac ck ikm = some temp_key ∧
      H.hmac temp_key [1] = some out1 ∧
      H.hmac_many temp_key [out1, [2]] = some out2 ∧
      H.hkdf ck ikm = some (out1, out2) := by
  obtain ⟨t, h1⟩ : ∃ t, H.hmac ck ikm = some t :=
    ⟨_, hmac_many_eq H ck [ikm] hck⟩
  have htl : t.length ≤ H.blockLen := by
    rw [hmac_many_len H ck [ikm] t h1]
    exact hlen
  obtain ⟨o1, h2⟩ : ∃ o, H.hmac t [1] = some o :=
    ⟨_, hmac_many_eq H t [[1]] htl⟩
  obtain ⟨o2, h3⟩ : ∃ o, H.hmac_many t [o1, [2]] = some o :=
    ⟨_, hmac_many_eq H t [o1, [2]] htl⟩
  refine ⟨t, o1, o2, h1, h2, h3, ?_⟩
  simp [HashSpec.hkdf, h1, h2, h3]

/-- C2 witness, at a concrete hash impl and concrete inputs. -/
theorem hkdf_computes_hmac_chain_witness :
    ∃ temp_key out1 out2,
      demoHash.hmac [1, 2] [3] = some temp_key ∧
      demoHash.hmac temp_key [1] = some out1 ∧
      demoHash.hmac_many temp_key [out1, [2]] = some out2 ∧
      demoHash.hkdf [1, 2] [3] = some (out1, out2) :=
  hkdf_computes_hmac_chain demoHash [1, 2] [3] (by decide) (by decide)

/-- C3: with the key within the block length, `hmac_many` returns
`hash(opad ‖ hash(ipad ‖ msg_1 ‖ … ‖ msg_n))`, where `ipad` (resp.
`opad`) is the block-length buffer of `0x36` (resp. `0x5c`) XORed with
the key in its leading `key.length` bytes; with the key longer than a
block it panics (`none`). -/
theorem hmac_many_correct (H : HashSpec) (key : List Byte)
    (data : List (List Byte)) :
    (key.length ≤ H.blockLen →
      H.hmac_many key data =
        some (H.hash
          ((List.zipWith Nat.xor (List.replicate H.blockLen 0x5c) key ++
              List.replicate (H.blockLen - key.length) 0x5c) ++
            H.hash
              ((List.zipWith Nat.xor (List.replicate H.blockLen 0x36) key ++
                  List.replicate (H.blockLen - key.length) 0x36) ++
                data.flatten)))) ∧
    (H.blockLen < key.length → H.hmac_many key data = none) := by
  constructor
  · intro h
    rw [hmac_many_eq H key data h]
    simp [HashSpec.hash, HashSpec.input, HashSpec.result, xorIntoPad,
      List.drop_replicate]
  · intro h
    rw [HashSpec.hmac_many, if_neg (by omega)]

/-- C3 witness, at a concrete hash impl, key and message list. -/
theorem hmac_many_correct_witness :
    demoHash.hmac_many [7, 9] [[1], [2, 3]] =
      some (demoHash.hash
        ((List.zipWith Nat.xor (List.replicate demoHash.blockLen 0x5c)
            [7, 9] ++
            List.replicate (demoHash.blockLen - 2) 0x5c) ++
          demoHash.hash
            ((List.zipWith Nat.xor (List.replicate demoHash.blockLen 0x36)
                [7, 9] ++
                List.replicate (demoHash.blockLen - 2) 0x36) ++
              ([[1], [2, 3]] : List (List Byte)).flatten))) :=
  (hmac_many_correct demoHash [7, 9] [[1], [2, 3]]).1 (by decide)

/-- C7: for a key satisfying the HMAC precondition, hashing two messages
through `hmac_many` equals `hmac` of their concatenation, since
incremental `input` calls absorb the concatenation of their data. -/
theorem hmac_many_append (H : HashSpec) (key a b : List Byte)
    (h : key.length ≤ H.blockLen) :
    H.hmac_many key [a, b] = H.hmac key (a ++ b) := by
  rw [HashSpec.hmac, hmac_many_eq H key [a, b] h,
    hmac_many_eq H key [a ++ b] h]
  simp

/-- C7 witness, at a concrete hash impl, key and message pair. -/
theorem hmac_many_append_witness :
    demoHash.hmac_many [5] [[1, 2], [3]] =
      demoHash.hmac [5] ([1, 2] ++ [3]) :=
  hmac_many_append demoHash [5] [1, 2] [3] (by decide)

/-- C8: for each size instantiated by `impl_array!` (32, 64, 128),
`from_slice` round-trips on `as_slice`, and fails (`none`) on any slice
whose length differs from the fixed length, in either direction. -/
theorem from_slice_roundtrip (n : Nat) (hn : n ∈ impl_array_lens) :
    (∀ x : U8Array n, U8Array.from_slice n x.as_slice = some x) ∧
    (∀ s : List Byte, s.length ≠ n → U8Array.from_slice n s = none) := by
  refine ⟨fun x => ?_, fun s hs => ?_⟩
  · have hx : (U8Array.as_slice x).length = n := x.property
    rw [U8Array.from_slice, dif_pos hx]
    exact congrArg some (Subtype.ext rfl)
  · rw [U8Array.from_slice, dif_neg hs]

/-- C8 witness: the all-zero 32-byte buffer round-trips. -/
theorem from_slice_roundtrip_witness :
    U8Array.from_slice 32 (U8Array.new 32).as_slice =
      some (U8Array.new 32) :=
  (from_slice_roundtrip 32 (by decide)).1 (U8Array.new 32)

end NoiseRust
